import Mathlib

/-!
Verification of the FinAI transaction anomaly detection engine
(`src/anomaly_router.py`) against its natural-language specification.

The Python code is shallowly embedded: Python floats are modelled as exact
rationals (`Rat`), Python dict-based records as structures with optional
fields, fallible code as `Except`, and the process-global model handle as
explicit state passing.
-/

namespace FinAI

/-- A Python value, as far as the engine's metadata mapping is concerned:
the `meta` mapping is `Dict[str, Any]`, and the engine only ever feeds a
metadata value to `int(...)`. We model the kinds of values that matter for
that coercion: integers, strings and `None`. -/
inductive PyVal where
  | pyInt (n : Int)
  | pyStr (s : String)
  | pyNone
deriving DecidableEq, Repr

/-- Models Python's `int(v)` coercion on a `PyVal`: `none` is a raised
`TypeError`/`ValueError`.  `int` on a string accepts an optional sign
followed by digits; on an integer it is the identity; on `None` it raises. -/
def toIntOpt : PyVal → Option Int
  | .pyInt n => some n
  | .pyStr s =>
      let t := s.data
      match t with
      | [] => none
      | c :: rest =>
          if c = '-' then (digitsToNat rest).map (fun n => -(n : Int))
          else if c = '+' then (digitsToNat rest).map (fun n => (n : Int))
          else (digitsToNat t).map (fun n => (n : Int))
  | .pyNone => none
where
  /-- All-digit, nonempty string to a natural number. -/
  digitsToNat (l : List Char) : Option Nat :=
    match l with
    | [] => none
    | _ =>
        if l.all Char.isDigit then
          some (l.foldl (fun acc c => acc * 10 + (c.toNat - 48)) 0)
        else none

/-- Read exactly `k` decimal digits off the front of the character list,
accumulating their value; fails if a non-digit (or end of input) is hit. -/
def readN (acc : Nat) : Nat → List Char → Option (Nat × List Char)
  | 0, l => some (acc, l)
  | _ + 1, [] => none
  | k + 1, c :: l =>
      if c.isDigit then readN (acc * 10 + (c.toNat - 48)) k l else none

/-- Expect a specific character at the head of the input. -/
def expectChar (c : Char) : List Char → Option (List Char)
  | [] => none
  | d :: l => if d = c then some l else none

/-- Gregorian leap year, as Python's `calendar.isleap`. -/
def isLeap (y : Nat) : Bool :=
  y % 4 = 0 && (y % 100 ≠ 0 || y % 400 = 0)

/-- Days in a month, as validated by Python's `datetime` constructor. -/
def daysInMonth (y m : Nat) : Nat :=
  if m = 2 then (if isLeap y then 29 else 28)
  else if m = 4 || m = 6 || m = 9 || m = 11 then 30
  else 31

/-- Parse the optional fractional-seconds part: a dot followed by exactly
6 or exactly 3 digits (the only lengths `datetime.fromisoformat` accepts
before Python 3.11).  Returns the remaining input. -/
def parseFraction (l : List Char) : Option (List Char) :=
  match l with
  | '.' :: rest =>
      match readN 0 6 rest with
      | some (_, r) => some r
      | none =>
          match readN 0 3 rest with
          | some (_, r) => some r
          | none => none
  | _ => some l

/-- Parse `HH[:MM[:SS[.fff[fff]]]]`, returning `(hour, minute, second,
remaining input)`.  Field-range validation happens at the caller, mirroring
how CPython parses the digits first and lets the `datetime` constructor
validate. -/
def parseHhMmSs (l : List Char) : Option (Nat × Nat × Nat × List Char) := do
  let (hh, l) ← readN 0 2 l
  match expectChar ':' l with
  | none => pure (hh, 0, 0, l)
  | some l => do
      let (mm, l) ← readN 0 2 l
      match expectChar ':' l with
      | none => pure (hh, mm, 0, l)
      | some l => do
          let (ss, l) ← readN 0 2 l
          let l ← parseFraction l
          pure (hh, mm, ss, l)

/-- Parse the optional UTC-offset suffix `±HH:MM[:SS[.ffffff]]` and require
end of input.  `timezone(timedelta(...))` demands a strict bound of 24
hours in magnitude. -/
def parseOffsetEnd (l : List Char) : Option Unit :=
  match l with
  | [] => some ()
  | c :: rest =>
      if c = '+' || c = '-' then do
        let (ohh, r) ← readN 0 2 rest
        let r ← expectChar ':' r
        let (omm, r) ← readN 0 2 r
        let (oss, r) ←
          match expectChar ':' r with
          | none => pure (0, r)
          | some r => do
              let (oss, r) ← readN 0 2 r
              let r ← parseFraction r
              pure (oss, r)
        guard (r = [])
        guard (ohh * 3600 + omm * 60 + oss < 86400)
        pure ()
      else none

/-- Models Python's `datetime.fromisoformat` (pre-3.11 grammar:
`YYYY-MM-DD[*HH[:MM[:SS[.fff[fff]]]][±HH:MM[:SS[.ffffff]]]]` with any
single separator character), projected onto the only output the engine
uses: the parsed hour.  Returns `none` where CPython raises `ValueError`. -/
def fromisoformatHour (s : String) : Option Nat :=
  match readN 0 4 s.data with
  | none => none
  | some (y, l) =>
  match expectChar '-' l with
  | none => none
  | some l =>
  match readN 0 2 l with
  | none => none
  | some (mo, l) =>
  match expectChar '-' l with
  | none => none
  | some l =>
  match readN 0 2 l with
  | none => none
  | some (d, l) =>
  if 1 ≤ y ∧ 1 ≤ mo ∧ mo ≤ 12 ∧ 1 ≤ d ∧ d ≤ daysInMonth y mo then
    match l with
    | [] => some 0
    | _sep :: l =>
        match parseHhMmSs l with
        | none => none
        | some (hh, mm, ss, l) =>
            if hh ≤ 23 ∧ mm ≤ 59 ∧ ss ≤ 59 then
              match parseOffsetEnd l with
              | none => none
              | some _ => some hh
            else none
  else none

/-- The fallback chain of `_parse_iso_hour`: `int(meta.get("hour",
datetime.utcnow().hour))`.  `utcHour` stands for `datetime.utcnow().hour`.
When `meta["hour"]` is present but `int(...)` fails on it, Python raises to
the caller (the `int` call sits outside — or re-raises out of — the
`try`/`except`), modelled as `Except.error`. -/
def hourFallback (meta : List (String × PyVal)) (utcHour : Nat) : Except Unit Int :=
  match meta.lookup "hour" with
  | some v =>
      match toIntOpt v with
      | some n => .ok n
      | none => .error ()
  | none => .ok (utcHour : Int)

/-- The `'Z'`-suffix normalization of `_parse_iso_hour`:
`ts[:-1] + "+00:00"` when `ts.endswith("Z")`.  Ending with the one-character
string `"Z"` is having `'Z'` as last character, and `ts[:-1]` drops the
last character. -/
def normTs (ts : String) : String :=
  if ts.data.getLast? = some 'Z' then ⟨ts.data.dropLast ++ "+00:00".data⟩ else ts

/-- Embeds `_parse_iso_hour(ts, meta)`.  `utcHour` is the ambient
`datetime.utcnow().hour` (always in `[0, 23]` at runtime, hence passed as a
`Nat` and constrained where theorems need it). -/
def _parse_iso_hour (ts : String) (meta : List (String × PyVal)) (utcHour : Nat) :
    Except Unit Int :=
  if ts = "" then hourFallback meta utcHour
  else
    match fromisoformatHour (normTs ts) with
    | some h => .ok (h : Int)
    | none => hourFallback meta utcHour

/-- The `TxIn` request model: `userId`, `amount`, ISO `timestamp`,
`merchant`, optional `merchant_category`, `is_international`, `currency`
and the open metadata mapping. -/
structure TxIn where
  userId : String
  amount : Rat
  timestamp : String
  merchant : String
  merchant_category : String := ""
  is_international : Bool := false
  currency : String := "INR"
  meta : List (String × PyVal) := []
deriving DecidableEq, Repr

/-- The user-history dict consumed by `rule_based_check`.  Every field the
engine reads is optional (`dict.get` with a default), so each is an
`Option`. -/
structure UserHistory where
  avg_amount : Option Rat := none
  median_amount : Option Rat := none
  std_amount : Option Rat := none
  transactions_today : Option Int := none
  merchants : Option (List String) := none
  country : Option String := none
  timezone_offset_hours : Option Rat := none
deriving DecidableEq, Repr

/-- The `AnomalyResp` response model. -/
structure AnomalyResp where
  anomaly : Bool
  score : Rat
  reasons : List String
deriving DecidableEq, Repr

/-- Embeds `get_user_history_stub`: the fixed stub history returned for every
user id. -/
def get_user_history_stub (_userId : String) : UserHistory :=
  { avg_amount := some 600
    median_amount := some 350
    std_amount := some 400
    transactions_today := some 2
    merchants := some ["Zomato", "SBI Card", "Amazon"]
    country := some "IN"
    timezone_offset_hours := some (11 / 2) }

/-- Python's binary `min(a, b)`: the smaller value, the first on ties
(executable, unlike Mathlib's lattice `min` on `Rat`). -/
def pymin (a b : Rat) : Rat := if b < a then b else a

/-- Python's binary `max(a, b)`: the larger value, the first on ties. -/
def pymax (a b : Rat) : Rat := if a < b then b else a

/-- The executable `pymin` agrees with the order-theoretic `min`. -/
theorem pymin_eq_min (a b : Rat) : pymin a b = min a b := by
  unfold pymin
  rcases le_or_lt a b with hab | hab
  · rw [if_neg (not_lt.mpr hab), min_eq_left hab]
  · rw [if_pos hab, min_eq_right hab.le]

/-- The executable `pymax` agrees with the order-theoretic `max`. -/
theorem pymax_eq_max (a b : Rat) : pymax a b = max a b := by
  unfold pymax
  rcases le_or_lt b a with hab | hab
  · rw [if_neg (not_lt.mpr hab), max_eq_left hab]
  · rw [if_pos hab, max_eq_right hab.le]

/-- Effective average: `user_history.get("avg_amount", 500.0)`. -/
def effAvg (h : UserHistory) : Rat := h.avg_amount.getD 500

/-- Effective standard deviation:
`user_history.get("std_amount", max(1.0, avg * 0.6))`. -/
def effStd (h : UserHistory) : Rat := h.std_amount.getD (pymax 1 (effAvg h * (6 / 10)))

/-- Effective median: `user_history.get("median_amount", avg)`. -/
def effMed (h : UserHistory) : Rat := h.median_amount.getD (effAvg h)

/-- Effective merchant list: `user_history.get("merchants", [])`. -/
def effMerchants (h : UserHistory) : List String := h.merchants.getD []

/-- Effective same-day transaction count:
`user_history.get("transactions_today", 0)`. -/
def effTxToday (h : UserHistory) : Int := h.transactions_today.getD 0

/-- The seven rule conditions of `rule_based_check`, in source order, at a
given extracted hour. -/
def ruleFlags (tx : TxIn) (h : UserHistory) (hour : Int) : List Bool :=
  [ decide (tx.amount > 20000)
  , decide (tx.amount > effMed h * 3)
  , decide (tx.amount > effAvg h + 3 * effStd h)
  , decide (hour < 6 || hour > 23 : Bool)
  , decide (tx.merchant ∉ effMerchants h)
  , tx.is_international && decide (tx.amount > 1000)
  , decide (effTxToday h > 10) ]

/-- The seven reason strings, in the fixed rule-evaluation order. -/
def ruleReasonStrings : List String :=
  [ "Very large transaction amount"
  , "High compared to user's typical transaction"
  , "Amount is far outside typical variance"
  , "Transaction at unusual hour"
  , "Merchant is new/unfamiliar"
  , "International high-value transaction"
  , "Unusually high transaction frequency today" ]

/-- Number of triggered rules. -/
def triggeredCount (tx : TxIn) (h : UserHistory) (hour : Int) : Nat :=
  (ruleFlags tx h hour).count true

/-- The `reasons` list built by the seven sequential `reasons.append`
calls of `rule_based_check`, as a concatenation of singleton-or-empty
lists in the same order. -/
def ruleReasons (tx : TxIn) (h : UserHistory) (hour : Int) : List String :=
  (if tx.amount > 20000 then ["Very large transaction amount"] else []) ++
  (if tx.amount > effMed h * 3 then ["High compared to user's typical transaction"] else []) ++
  (if tx.amount > effAvg h + 3 * effStd h then ["Amount is far outside typical variance"] else []) ++
  (if hour < 6 || hour > 23 then ["Transaction at unusual hour"] else []) ++
  (if tx.merchant ∉ effMerchants h then ["Merchant is new/unfamiliar"] else []) ++
  (if tx.is_international && decide (tx.amount > 1000) then
    ["International high-value transaction"] else []) ++
  (if effTxToday h > 10 then ["Unusually high transaction frequency today"] else [])

/-- Embeds `rule_based_check(tx, user_history)`.  The hour extraction can
raise (bad `meta["hour"]`), in which case the whole check raises. -/
def rule_based_check (tx : TxIn) (h : UserHistory) (utcHour : Nat) :
    Except Unit AnomalyResp :=
  match _parse_iso_hour tx.timestamp tx.meta utcHour with
  | .error e => .error e
  | .ok hour =>
      let reasons := ruleReasons tx h hour
      .ok { anomaly := decide (reasons.length > 0)
            score := pymin 1 ((reasons.length : Rat) / 5)
            reasons := reasons }

/-- The code points of the Unicode `Nd` (decimal digit) category, as
maximal ranges, generated from the Unicode 14.0 character database (the
database CPython 3.11 ships). -/
def ndRanges : List (Nat × Nat) :=
  [ (0x30, 0x39), (0x660, 0x669), (0x6f0, 0x6f9), (0x7c0, 0x7c9),
    (0x966, 0x96f), (0x9e6, 0x9ef), (0xa66, 0xa6f), (0xae6, 0xaef),
    (0xb66, 0xb6f), (0xbe6, 0xbef), (0xc66, 0xc6f), (0xce6, 0xcef),
    (0xd66, 0xd6f), (0xde6, 0xdef), (0xe50, 0xe59), (0xed0, 0xed9),
    (0xf20, 0xf29), (0x1040, 0x1049), (0x1090, 0x1099), (0x17e0, 0x17e9),
    (0x1810, 0x1819), (0x1946, 0x194f), (0x19d0, 0x19d9), (0x1a80, 0x1a89),
    (0x1a90, 0x1a99), (0x1b50, 0x1b59), (0x1bb0, 0x1bb9), (0x1c40, 0x1c49),
    (0x1c50, 0x1c59), (0xa620, 0xa629), (0xa8d0, 0xa8d9), (0xa900, 0xa909),
    (0xa9d0, 0xa9d9), (0xa9f0, 0xa9f9), (0xaa50, 0xaa59), (0xabf0, 0xabf9),
    (0xff10, 0xff19), (0x104a0, 0x104a9), (0x10d30, 0x10d39),
    (0x11066, 0x1106f), (0x110f0, 0x110f9), (0x11136, 0x1113f),
    (0x111d0, 0x111d9), (0x112f0, 0x112f9), (0x11450, 0x11459),
    (0x114d0, 0x114d9), (0x11650, 0x11659), (0x116c0, 0x116c9),
    (0x11730, 0x11739), (0x118e0, 0x118e9), (0x11950, 0x11959),
    (0x11c50, 0x11c59), (0x11d50, 0x11d59), (0x11da0, 0x11da9),
    (0x16a60, 0x16a69), (0x16ac0, 0x16ac9), (0x16b50, 0x16b59),
    (0x1d7ce, 0x1d7ff), (0x1e140, 0x1e149), (0x1e2f0, 0x1e2f9),
    (0x1e950, 0x1e959), (0x1fbf0, 0x1fbf9) ]

/-- Models the regex class `\d` of Python's `re` on `str`: it matches
exactly the characters of the Unicode `Nd` category (not just ASCII
`0`-`9`). -/
def isNd (c : Char) : Bool :=
  ndRanges.any (fun r => r.1 ≤ c.toNat && c.toNat ≤ r.2)

/-- The fixed redaction token of `mask_personal_data`. -/
def maskToken : List Char := "[MASKED_NUMBER]".data

/-- Character-list core of `mask_personal_data`: `re.sub(r"\d{8,}",
"[MASKED_NUMBER]", text)`.  The regex engine matches each maximal run of
consecutive `\d` characters (Unicode `Nd` digits, via `isNd`; greedy
`\d{8,}` starting at the first digit of a run) and substitutes the token
when the run has length at least 8. -/
def maskRuns (l : List Char) : List Char :=
  match l with
  | [] => []
  | c :: cs =>
      if isNd c then
        (if 8 ≤ ((c :: cs).takeWhile isNd).length then maskToken
         else (c :: cs).takeWhile isNd) ++ maskRuns (cs.dropWhile isNd)
      else c :: maskRuns cs
termination_by l.length
decreasing_by
  all_goals
    simp only [List.length_cons, Nat.lt_succ_iff]
    first
    | exact (List.dropWhile_sublist isNd).length_le
    | exact Nat.le_refl _

/-- Embeds `mask_personal_data(text)`. -/
def mask_personal_data (s : String) : String := ⟨maskRuns s.data⟩

/-- Returns `true` iff the text has no run of 8 or more consecutive
Unicode `Nd` digits (i.e. the regex `\d{8,}` has no match). -/
def noLongRun (l : List Char) : Bool :=
  match l with
  | [] => true
  | c :: cs =>
      if isNd c then
        decide (((c :: cs).takeWhile isNd).length < 8) &&
          noLongRun (cs.dropWhile isNd)
      else noLongRun cs
termination_by l.length
decreasing_by
  all_goals
    simp only [List.length_cons, Nat.lt_succ_iff]
    first
    | exact (List.dropWhile_sublist isNd).length_le
    | exact Nat.le_refl _

/-- The pre-trained classifier handle (`iso_model.joblib`): exposes
`decision_function` (continuous margin) and `predict` (±1 label) over the
4-entry feature vector. -/
structure IsoModel where
  decision_function : List Rat → Rat
  predict : List Rat → Int

/-- Embeds `load_ml_model()` with the process-global `_ml_model` made an
explicit state.  `disk` is the content of `ML_MODEL_PATH` (`none` = file
absent).  Returns `(new state, returned handle, whether the artifact was
read from disk on this call)`. -/
def load_ml_model (disk st : Option IsoModel) :
    Option IsoModel × Option IsoModel × Bool :=
  match st with
  | some m => (some m, some m, false)
  | none =>
      match disk with
      | some m => (some m, some m, true)
      | none => (none, none, false)

/-- Iterates `load_ml_model` over a sequence of calls; the disk content may
differ call to call (the artifact could appear mid-process).  Returns the
final state, the total number of disk reads, and the handle returned by
each call. -/
def runLoads (disks : List (Option IsoModel)) (st : Option IsoModel) :
    Option IsoModel × Nat × List (Option IsoModel) :=
  match disks with
  | [] => (st, 0, [])
  | d :: ds =>
      let (st', res, read) := load_ml_model d st
      let (fin, n, results) := runLoads ds st'
      (fin, (if read then 1 else 0) + n, res :: results)

/-- Observable steps of `ml_detector`, in source order, used to express
that the `ModelUnavailable` failure precedes any feature computation. -/
inductive MlEvent where
  | loadModel
  | parseHour
  | hashMerchant
  | buildFeatures
  | scoreModel
deriving DecidableEq, Repr

/-- Exceptions escaping `ml_detector`: the deliberate
`RuntimeError("ML model not found on server.")`, or the `ValueError` a bad
`meta["hour"]` raises out of `_parse_iso_hour`. -/
inductive MlError where
  | runtimeError (msg : String)
  | valueError
deriving DecidableEq, Repr

/-- Embeds `ml_detector(tx)`.  `hashFn` models Python's process-seeded
`hash` on strings; `sigmoid` models the float computation
`1.0 / (1.0 + exp(-score_raw))`; `disk`/`st` as in `load_ml_model`.
Returns the new model-handle state, the outcome, and the trace of steps
actually executed. -/
def ml_detector (hashFn : String → Int) (sigmoid : Rat → Rat)
    (disk st : Option IsoModel) (tx : TxIn) (utcHour : Nat) :
    Option IsoModel × Except MlError (Bool × Rat × List String) × List MlEvent :=
  let (st', model, _) := load_ml_model disk st
  match model with
  | none => (st', .error (.runtimeError "ML model not found on server."), [.loadModel])
  | some m =>
      match _parse_iso_hour tx.timestamp tx.meta utcHour with
      | .error _ => (st', .error .valueError, [.loadModel, .parseHour])
      | .ok hour =>
          let merchant_hash := (hashFn tx.merchant).natAbs % 1000
          let x : List Rat :=
            [tx.amount, (hour : Rat), if tx.is_international then 1 else 0,
             (merchant_hash : Rat)]
          let score_raw := m.decision_function x
          let pred := m.predict x
          let is_anom := decide (pred = -1)
          let score := sigmoid score_raw
          let reasons : List String :=
            if is_anom then ["ML model flagged as outlier (demo model)."] else []
          (st', .ok (is_anom, score, reasons),
           [.loadModel, .parseHour, .hashMerchant, .buildFeatures, .scoreModel])

/-- An HTTP error response raised by an endpoint. -/
structure HTTPExc where
  status_code : Nat
  detail : String
deriving DecidableEq, Repr

/-- How a request to an endpoint can fail: a deliberately raised
`HTTPException`, or an exception nobody catches. -/
inductive EndpointErr where
  | http (e : HTTPExc)
  | uncaught
deriving DecidableEq, Repr

/-- Embeds the `/anomaly/ml` endpoint `detect_ml`: runs `ml_detector`,
mapping `RuntimeError` to a 503 `HTTPException` with the error message as
detail; any other exception propagates uncaught. -/
def detect_ml (hashFn : String → Int) (sigmoid : Rat → Rat)
    (disk st : Option IsoModel) (tx : TxIn) (utcHour : Nat) :
    Option IsoModel × Except EndpointErr AnomalyResp × List MlEvent :=
  let (st', r, evs) := ml_detector hashFn sigmoid disk st tx utcHour
  match r with
  | .ok (a, s, rs) => (st', .ok ⟨a, s, rs⟩, evs)
  | .error (.runtimeError msg) => (st', .error (.http ⟨503, msg⟩), evs)
  | .error .valueError => (st', .error .uncaught, evs)

/-- Embeds the `/anomaly/rule` endpoint `detect_rule` in state-passing
style: the first component of the result is the post-state of the two
records the handler can reach (the input transaction and the fetched
history).  `mask_personal_data` is applied to a derived copy of the
merchant text only; the check runs on the original transaction. -/
def detect_rule (tx : TxIn) (utcHour : Nat) :
    (TxIn × UserHistory) × Except Unit AnomalyResp :=
  let user_history := get_user_history_stub tx.userId
  let _masked_merchant := mask_personal_data tx.merchant
  ((tx, user_history), rule_based_check tx user_history utcHour)

/-- Embeds `rule_based_check` in the same state-passing view: the first component
is the post-state of the transaction and history it was given. -/
def rule_based_check_st (tx : TxIn) (h : UserHistory) (utcHour : Nat) :
    (TxIn × UserHistory) × Except Unit AnomalyResp :=
  ((tx, h), rule_based_check tx h utcHour)

/-! ### Concrete inputs used by witnesses and counterexamples -/

/-- The spec's end-to-end example transaction. -/
def txC1 : TxIn :=
  { userId := "u1", amount := 25000, timestamp := "2024-06-01T02:00:00Z",
    merchant := "Unknown Shop", is_international := true }

/-- The response the engine produces on `txC1` against the stub history. -/
def respC1 : AnomalyResp :=
  { anomaly := true, score := 1,
    reasons := ["Very large transaction amount",
                "High compared to user's typical transaction",
                "Amount is far outside typical variance",
                "Transaction at unusual hour",
                "Merchant is new/unfamiliar",
                "International high-value transaction"] }

/-- A benign transaction: small amount, known merchant, mid-day hour. -/
def txC2 : TxIn :=
  { userId := "u2", amount := 100, timestamp := "", merchant := "Zomato",
    meta := [("hour", .pyInt 12)] }

/-- A transaction whose metadata supplies the out-of-range hour 24. -/
def txC3 : TxIn :=
  { userId := "u3", amount := 0, timestamp := "", merchant := "Zomato",
    meta := [("hour", .pyInt 24)] }

/-- A benign transaction against a history with no merchant field. -/
def txC10 : TxIn :=
  { userId := "u4", amount := 100, timestamp := "", merchant := "Zomato",
    meta := [("hour", .pyInt 12)] }

/-- A history profile with every field absent. -/
def emptyHistory : UserHistory := {}

/-!
## Theorems

Helper lemmas first, then one theorem per claim (with its witness or
counterexample where required).
-/

theorem length_ite_singleton (c : Prop) [Decidable c] (s : String) :
    (if c then [s] else []).length = if c then 1 else 0 := by
  split <;> rfl

/-- The number of reason strings collected equals the number of rule
conditions that hold. -/
theorem ruleReasons_length (tx : TxIn) (h : UserHistory) (hour : Int) :
    (ruleReasons tx h hour).length = triggeredCount tx h hour := by
  simp only [ruleReasons, triggeredCount, ruleFlags, List.length_append,
    length_ite_singleton, List.count_cons, List.count_nil, beq_iff_eq,
    decide_eq_true_eq, Bool.or_eq_true, Bool.and_eq_true]
  split_ifs <;> simp_all

theorem ite_singleton_sublist {c : Prop} [Decidable c] {s : String} :
    (if c then [s] else []).Sublist [s] := by
  split
  · exact List.Sublist.refl _
  · exact List.nil_sublist _

theorem ite_singleton_append_sublist {c : Prop} [Decidable c] {s : String}
    {l₁ l₂ : List String} (hsub : l₁.Sublist l₂) :
    ((if c then [s] else []) ++ l₁).Sublist (s :: l₂) := by
  split
  · exact hsub.cons₂ s
  · exact hsub.cons s

/-- The collected reasons are always, in order, a sublist of the seven
reason strings in rule-evaluation order. -/
theorem ruleReasons_sublist (tx : TxIn) (h : UserHistory) (hour : Int) :
    (ruleReasons tx h hour).Sublist ruleReasonStrings := by
  unfold ruleReasons ruleReasonStrings
  simp only [List.append_assoc]
  exact ite_singleton_append_sublist
    (ite_singleton_append_sublist
      (ite_singleton_append_sublist
        (ite_singleton_append_sublist
          (ite_singleton_append_sublist
            (ite_singleton_append_sublist
              ite_singleton_sublist)))))

theorem ruleReasonStrings_nodup : ruleReasonStrings.Nodup := by decide

theorem ruleReasons_count_le_one (tx : TxIn) (h : UserHistory) (hour : Int)
    (s : String) : (ruleReasons tx h hour).count s ≤ 1 :=
  le_trans ((ruleReasons_sublist tx h hour).count_le s)
    (List.nodup_iff_count_le_one.mp ruleReasonStrings_nodup s)

/-- When the hour extraction succeeds, `rule_based_check` returns exactly
the aggregation of `ruleReasons`. -/
theorem rule_based_check_ok (tx : TxIn) (h : UserHistory) (utcHour : Nat)
    (hr : Int) (r : AnomalyResp)
    (hp : _parse_iso_hour tx.timestamp tx.meta utcHour = .ok hr)
    (hq : rule_based_check tx h utcHour = .ok r) :
    r = { anomaly := decide ((ruleReasons tx h hr).length > 0)
          score := pymin 1 (((ruleReasons tx h hr).length : Rat) / 5)
          reasons := ruleReasons tx h hr } := by
  unfold rule_based_check at hq
  rw [hp] at hq
  simp only [Except.ok.injEq] at hq
  exact hq.symm

/-- C1: for every transaction and history profile, the rule-based
detector's result has `anomaly` true iff the number `k` of triggered rules
is positive, `score = min(1, k/5)`, and exactly `k` reasons. -/
theorem rule_based_check_aggregation (tx : TxIn) (h : UserHistory)
    (utcHour : Nat) (hr : Int) (r : AnomalyResp)
    (hp : _parse_iso_hour tx.timestamp tx.meta utcHour = .ok hr)
    (hq : rule_based_check tx h utcHour = .ok r) :
    (r.anomaly = true ↔ 0 < triggeredCount tx h hr) ∧
    r.score = min 1 ((triggeredCount tx h hr : Rat) / 5) ∧
    r.reasons.length = triggeredCount tx h hr := by
  have hr' := rule_based_check_ok tx h utcHour hr r hp hq
  subst hr'
  refine ⟨by simp [ruleReasons_length], ?_, by simp [ruleReasons_length]⟩
  simp [pymin_eq_min, ruleReasons_length]

/-- Witness for C1 at the spec's end-to-end example: six rules trigger. -/
theorem rule_based_check_aggregation_witness :
    (respC1.anomaly = true ↔ 0 < triggeredCount txC1 (get_user_history_stub "u1") 2) ∧
    respC1.score = min 1 ((triggeredCount txC1 (get_user_history_stub "u1") 2 : Rat) / 5) ∧
    respC1.reasons.length = triggeredCount txC1 (get_user_history_stub "u1") 2 :=
  rule_based_check_aggregation txC1 (get_user_history_stub "u1") 5 2 respC1
    (by rfl)
    (by
      have hp : _parse_iso_hour txC1.timestamp txC1.meta 5 = .ok 2 := by rfl
      rw [rule_based_check, hp]
      norm_num +decide [ruleReasons, txC1, respC1, get_user_history_stub,
        effMed, effAvg, effStd, effMerchants, effTxToday, pymin])

/-- C2: a transaction passing all seven rule conditions yields
`anomaly = false`, `score = 0`, no reasons. -/
theorem rule_based_check_all_pass (tx : TxIn) (h : UserHistory)
    (utcHour : Nat) (hr : Int)
    (hp : _parse_iso_hour tx.timestamp tx.meta utcHour = .ok hr)
    (h1 : tx.amount ≤ 20000)
    (h2 : tx.amount ≤ 3 * effMed h)
    (h3 : tx.amount ≤ effAvg h + 3 * effStd h)
    (h4 : 6 ≤ hr) (h5 : hr ≤ 23)
    (h6 : tx.merchant ∈ effMerchants h)
    (h7 : ¬(tx.is_international = true ∧ tx.amount > 1000))
    (h8 : effTxToday h ≤ 10) :
    rule_based_check tx h utcHour = .ok ⟨false, 0, []⟩ := by
  have hreasons : ruleReasons tx h hr = [] := by
    unfold ruleReasons
    rw [if_neg (not_lt.mpr h1),
        if_neg (not_lt.mpr (by linarith)),
        if_neg (not_lt.mpr h3),
        if_neg (by simp only [Bool.or_eq_true, decide_eq_true_eq, not_or, not_lt]; omega),
        if_neg (not_not_intro h6),
        if_neg (by simp only [Bool.and_eq_true, decide_eq_true_eq]; exact h7),
        if_neg (not_lt.mpr h8)]
    simp
  rw [rule_based_check, hp]
  simp only [hreasons]
  norm_num [pymin]

/-- Witness for C2: a small known-merchant mid-day transaction against the
stub history is benign. -/
theorem rule_based_check_all_pass_witness :
    rule_based_check txC2 (get_user_history_stub "u2") 5 = .ok ⟨false, 0, []⟩ :=
  rule_based_check_all_pass txC2 (get_user_history_stub "u2") 5 12
    (by rfl)
    (by norm_num [txC2])
    (by norm_num [txC2, effMed, get_user_history_stub])
    (by norm_num [txC2, effAvg, effStd, get_user_history_stub])
    (by norm_num)
    (by norm_num)
    (by simp [txC2, effMerchants, get_user_history_stub])
    (by simp [txC2])
    (by norm_num [effTxToday, get_user_history_stub])

/-- C5: the reasons list is always ordered by the fixed rule-evaluation
order (a sublist of the seven reason strings in that order), and each rule
contributes at most one reason. -/
theorem rule_based_check_reason_order (tx : TxIn) (h : UserHistory)
    (utcHour : Nat) (r : AnomalyResp)
    (hq : rule_based_check tx h utcHour = .ok r) :
    r.reasons.Sublist ruleReasonStrings ∧ ∀ s : String, r.reasons.count s ≤ 1 := by
  unfold rule_based_check at hq
  cases hp : _parse_iso_hour tx.timestamp tx.meta utcHour with
  | error e => rw [hp] at hq; cases hq
  | ok hour =>
      rw [hp] at hq
      simp only [Except.ok.injEq] at hq
      subst hq
      exact ⟨ruleReasons_sublist tx h hour, ruleReasons_count_le_one tx h hour⟩

/-- Witness for C5 at the end-to-end example. -/
theorem rule_based_check_reason_order_witness :
    respC1.reasons.Sublist ruleReasonStrings ∧
    ∀ s : String, respC1.reasons.count s ≤ 1 :=
  rule_based_check_reason_order txC1 (get_user_history_stub "u1") 5 respC1
    (by
      have hp : _parse_iso_hour txC1.timestamp txC1.meta 5 = .ok 2 := by rfl
      rw [rule_based_check, hp]
      norm_num +decide [ruleReasons, txC1, respC1, get_user_history_stub,
        effMed, effAvg, effStd, effMerchants, effTxToday, pymin])

/-- C10: when the history has no known-merchant field, rule 5 always
fires: the verdict is anomalous, the score is at least 0.2, and the
new-merchant reason is reported, regardless of other fields. -/
theorem rule_based_check_unknown_merchants (tx : TxIn) (h : UserHistory)
    (utcHour : Nat) (r : AnomalyResp)
    (hm : h.merchants = none)
    (hq : rule_based_check tx h utcHour = .ok r) :
    r.anomaly = true ∧ (1 / 5 : Rat) ≤ r.score ∧
    "Merchant is new/unfamiliar" ∈ r.reasons := by
  unfold rule_based_check at hq
  cases hp : _parse_iso_hour tx.timestamp tx.meta utcHour with
  | error e => rw [hp] at hq; cases hq
  | ok hour =>
      rw [hp] at hq
      simp only [Except.ok.injEq] at hq
      subst hq
      have hmem : "Merchant is new/unfamiliar" ∈ ruleReasons tx h hour := by
        unfold ruleReasons
        have hempty : effMerchants h = [] := by simp [effMerchants, hm]
        simp only [List.append_assoc]
        refine List.mem_append_right _ ?_
        refine List.mem_append_right _ ?_
        refine List.mem_append_right _ ?_
        refine List.mem_append_right _ ?_
        refine List.mem_append_left _ ?_
        rw [hempty, if_pos (List.not_mem_nil tx.merchant)]
        exact List.mem_singleton_self _
      have hlen : 0 < (ruleReasons tx h hour).length :=
        List.length_pos_of_mem hmem
      refine ⟨by simpa using hlen, ?_, hmem⟩
      rw [pymin_eq_min]
      refine le_min (by norm_num) ?_
      rw [div_le_div_iff_of_pos_right (by norm_num)]
      exact_mod_cast hlen

/-- Witness for C10: even a benign transaction fires rule 5 against an
empty history. -/
theorem rule_based_check_unknown_merchants_witness :
    (AnomalyResp.mk true (1/5) ["Merchant is new/unfamiliar"]).anomaly = true ∧
    (1 / 5 : Rat) ≤ (AnomalyResp.mk true (1/5) ["Merchant is new/unfamiliar"]).score ∧
    "Merchant is new/unfamiliar" ∈
      (AnomalyResp.mk true (1/5) ["Merchant is new/unfamiliar"]).reasons :=
  rule_based_check_unknown_merchants txC10 emptyHistory 5
    (AnomalyResp.mk true (1/5) ["Merchant is new/unfamiliar"])
    (by rfl)
    (by
      have hp : _parse_iso_hour txC10.timestamp txC10.meta 5 = .ok 12 := by rfl
      rw [rule_based_check, hp]
      norm_num +decide [ruleReasons, txC10, emptyHistory, effMed, effAvg,
        effStd, effMerchants, effTxToday, pymin, pymax])

/-- A successfully parsed timestamp always yields an hour of at most 23
(the embedded `datetime` field validation). -/
theorem fromisoformatHour_le_23 (s : String) (hh : Nat)
    (hp : fromisoformatHour s = some hh) : hh ≤ 23 := by
  unfold fromisoformatHour at hp
  repeat' split at hp
  all_goals try cases hp
  all_goals omega

/-- Counterexample to C3: with an empty timestamp and `meta["hour"] = 24`,
`_parse_iso_hour` returns 24, outside `[0, 23]`, and with it rule 4's
`hour > 23` branch fires (hour 24 is not `< 6`), so that branch is
reachable. -/
theorem extract_hour_out_of_range_cex :
    _parse_iso_hour "" [("hour", PyVal.pyInt 24)] 0 = .ok 24 ∧
    ¬((24 : Int) ≤ 23) ∧
    rule_based_check txC3 (get_user_history_stub "u3") 0 =
      .ok ⟨true, 1 / 5, ["Transaction at unusual hour"]⟩ := by
  refine ⟨by rfl, by decide, ?_⟩
  have hp : _parse_iso_hour txC3.timestamp txC3.meta 0 = .ok 24 := by rfl
  rw [rule_based_check, hp]
  norm_num +decide [ruleReasons, txC3, get_user_history_stub, effMed, effAvg,
    effStd, effMerchants, effTxToday, pymin]

/-- C3 (amended): `_parse_iso_hour` returns an hour in `[0, 23]` provided
any metadata-supplied hour is itself in `[0, 23]` (the current-UTC-hour
fallback always is); only out-of-range metadata can escape the bound. -/
theorem extract_hour_bounded (ts : String) (meta : List (String × PyVal))
    (utcHour : Nat) (h : Int)
    (hutc : utcHour ≤ 23)
    (hmeta : ∀ v n, meta.lookup "hour" = some v → toIntOpt v = some n →
      0 ≤ n ∧ n ≤ 23)
    (hp : _parse_iso_hour ts meta utcHour = .ok h) :
    0 ≤ h ∧ h ≤ 23 := by
  have hfb : hourFallback meta utcHour = .ok h → 0 ≤ h ∧ h ≤ 23 := by
    intro hf
    unfold hourFallback at hf
    split at hf
    · rename_i v hv
      split at hf
      · rename_i n hn
        simp only [Except.ok.injEq] at hf
        subst hf
        exact hmeta v _ hv hn
      · cases hf
    · simp only [Except.ok.injEq] at hf
      subst hf
      omega
  unfold _parse_iso_hour at hp
  split at hp
  · exact hfb hp
  · split at hp
    · rename_i hh hfrom
      simp only [Except.ok.injEq] at hp
      subst hp
      have := fromisoformatHour_le_23 _ _ hfrom
      omega
    · exact hfb hp

/-- Witness for C3 (amended) at the spec's example timestamp, hour 23. -/
theorem extract_hour_bounded_witness : 0 ≤ (23 : Int) ∧ (23 : Int) ≤ 23 :=
  extract_hour_bounded "2024-01-01T23:00:00Z" [] 0 23 (by omega)
    (by simp [List.lookup]) (by rfl)

/-- Counterexample to C4: a metadata `"hour"` value that `int(...)` cannot
coerce makes `_parse_iso_hour` raise to the caller, both on an empty and on
a malformed timestamp. -/
theorem extract_hour_raises_cex :
    _parse_iso_hour "" [("hour", PyVal.pyStr "oops")] 0 = .error () ∧
    _parse_iso_hour "31-12-2024" [("hour", PyVal.pyStr "oops")] 0 = .error () :=
  ⟨by rfl, by rfl⟩

/-- C4 (amended): provided the metadata `"hour"` value, when present, is
coercible to an integer, `_parse_iso_hour` never raises; every parse
failure (empty or unparseable timestamp) falls back to the metadata hour if
present, else to the current UTC hour. -/
theorem extract_hour_no_raise (ts : String) (meta : List (String × PyVal))
    (utcHour : Nat)
    (hmeta : ∀ v, meta.lookup "hour" = some v → (toIntOpt v).isSome = true) :
    (∃ h, _parse_iso_hour ts meta utcHour = .ok h) ∧
    ((ts = "" ∨ fromisoformatHour (normTs ts) = none) →
      _parse_iso_hour ts meta utcHour = hourFallback meta utcHour) ∧
    (meta.lookup "hour" = none → hourFallback meta utcHour = .ok (utcHour : Int)) ∧
    (∀ v n, meta.lookup "hour" = some v → toIntOpt v = some n →
      hourFallback meta utcHour = .ok n) := by
  have hfb : ∃ h, hourFallback meta utcHour = .ok h := by
    unfold hourFallback
    split
    · rename_i v hv
      have hs := hmeta v hv
      split

      · exact ⟨_, rfl⟩
      · rename_i hnone
        rw [hnone] at hs
        cases hs
    · exact ⟨_, rfl⟩
  refine ⟨?_, ?_, ?_, ?_⟩
  · unfold _parse_iso_hour
    split
    · exact hfb
    · split
      · exact ⟨_, rfl⟩
      · exact hfb
  · intro hor
    unfold _parse_iso_hour
    split
    · rfl
    · rename_i hts
      rcases hor with hor | hor
      · exact absurd hor hts
      · rw [hor]
  · intro hnone
    simp only [hourFallback, hnone]
  · intro v n hv hn
    simp only [hourFallback, hv, hn]

/-- Witness for C4 (amended): a malformed timestamp with a coercible
metadata hour. -/
theorem extract_hour_no_raise_witness :
    (∃ h, _parse_iso_hour "31-12-2024" [("hour", PyVal.pyInt 7)] 4 = .ok h) ∧
    (("31-12-2024" = "" ∨ fromisoformatHour (normTs "31-12-2024") = none) →
      _parse_iso_hour "31-12-2024" [("hour", PyVal.pyInt 7)] 4 =
        hourFallback [("hour", PyVal.pyInt 7)] 4) ∧
    (([("hour", PyVal.pyInt 7)] : List (String × PyVal)).lookup "hour" = none →
      hourFallback [("hour", PyVal.pyInt 7)] 4 = .ok (4 : Int)) ∧
    (∀ v n, ([("hour", PyVal.pyInt 7)] : List (String × PyVal)).lookup "hour" = some v →
      toIntOpt v = some n → hourFallback [("hour", PyVal.pyInt 7)] 4 = .ok n) :=
  extract_hour_no_raise "31-12-2024" [("hour", PyVal.pyInt 7)] 4
    (by
      intro v hv
      simp only [List.lookup] at hv
      norm_num at hv
      subst hv
      rfl)

/-- C7: with the model artifact absent, `ml_detector` fails with the
`RuntimeError` for every transaction with only the load step executed — no
hour parsing, merchant hashing or feature construction — and `detect_ml`
maps that failure to a 503 response.  (`ml_detector` takes no history
argument at all, so no history is read.) -/
theorem ml_model_unavailable (hashFn : String → Int) (sigmoid : Rat → Rat)
    (tx : TxIn) (utcHour : Nat) :
    ml_detector hashFn sigmoid none none tx utcHour =
      (none, .error (.runtimeError "ML model not found on server."), [.loadModel]) ∧
    detect_ml hashFn sigmoid none none tx utcHour =
      (none, .error (.http ⟨503, "ML model not found on server."⟩), [.loadModel]) :=
  ⟨rfl, rfl⟩

/-- C8: once the model handle is loaded, every later `load_ml_model` call
returns the same cached handle without touching the disk, over any
sequence of calls and any disk contents: zero disk reads, every result the
original handle, final state unchanged. -/
theorem model_loaded_once (disks : List (Option IsoModel)) (m : IsoModel) :
    (∀ disk, load_ml_model disk (some m) = (some m, some m, false)) ∧
    runLoads disks (some m) = (some m, 0, List.replicate disks.length (some m)) := by
  refine ⟨fun disk => rfl, ?_⟩
  induction disks with
  | nil => rfl
  | cons d ds ih => simp [runLoads, load_ml_model, ih, List.replicate_succ]

/-- C9: in the state-passing view, the rule-based detector returns its
transaction and history unchanged, and `detect_rule` runs the check on the
original (unmasked) transaction — `mask_personal_data` touches only a
derived copy of the merchant string. -/
theorem rule_based_no_mutation (tx : TxIn) (h : UserHistory) (utcHour : Nat) :
    (rule_based_check_st tx h utcHour).1 = (tx, h) ∧
    (detect_rule tx utcHour).1 = (tx, get_user_history_stub tx.userId) ∧
    (detect_rule tx utcHour).2 =
      rule_based_check tx (get_user_history_stub tx.userId) utcHour :=
  ⟨rfl, rfl, rfl⟩

theorem maskRuns_nil : maskRuns [] = [] := by rw [maskRuns]

theorem noLongRun_nil : noLongRun [] = true := by rw [noLongRun]

theorem maskToken_no_digit : ∀ c ∈ maskToken, isNd c = false := by decide

theorem maskRuns_cons_digit (c : Char) (cs : List Char) (hc : isNd c = true) :
    maskRuns (c :: cs) =
      (if 8 ≤ ((c :: cs).takeWhile isNd).length then maskToken
       else (c :: cs).takeWhile isNd) ++
        maskRuns (cs.dropWhile isNd) := by
  rw [maskRuns]
  rw [if_pos hc]

theorem maskRuns_cons_neg (c : Char) (cs : List Char) (hc : isNd c = false) :
    maskRuns (c :: cs) = c :: maskRuns cs := by
  rw [maskRuns]
  rw [if_neg (by simp [hc])]

theorem noLongRun_cons_digit (c : Char) (cs : List Char) (hc : isNd c = true) :
    noLongRun (c :: cs) =
      (decide (((c :: cs).takeWhile isNd).length < 8) &&
        noLongRun (cs.dropWhile isNd)) := by
  rw [noLongRun]
  rw [if_pos hc]

theorem noLongRun_cons_neg (c : Char) (cs : List Char) (hc : isNd c = false) :
    noLongRun (c :: cs) = noLongRun cs := by
  rw [noLongRun]
  rw [if_neg (by simp [hc])]

theorem dropWhile_head_neg {p : Char → Bool} :
    ∀ {l : List Char} {d : Char} {ds : List Char},
      l.dropWhile p = d :: ds → p d = false := by
  intro l
  induction l with
  | nil => intro d ds hh; cases hh
  | cons a t ih =>
      intro d ds hh
      rw [List.dropWhile_cons] at hh
      split at hh
      · exact ih hh
      · rename_i hpa
        cases hh
        simpa using hpa

/-- A list that does not start with a digit has no leading digit run. -/
theorem takeWhile_head_nil {x : List Char}
    (hx : ∀ d, x.head? = some d → isNd d = false) :
    x.takeWhile isNd = [] := by
  cases x with
  | nil => rfl
  | cons d ds => exact List.takeWhile_cons_of_neg (by simp [hx d rfl])

theorem dropWhile_head_self {x : List Char}
    (hx : ∀ d, x.head? = some d → isNd d = false) :
    x.dropWhile isNd = x := by
  cases x with
  | nil => rfl
  | cons d ds => exact List.dropWhile_cons_of_neg (by simp [hx d rfl])

/-- `maskRuns` preserves a non-digit head (or emptiness). -/
theorem maskRuns_head_neg {x : List Char}
    (hx : ∀ d, x.head? = some d → isNd d = false) :
    ∀ d, (maskRuns x).head? = some d → isNd d = false := by
  cases x with
  | nil => rw [maskRuns_nil]; intro d hd; cases hd
  | cons c cs =>
      have hc : isNd c = false := hx c rfl
      rw [maskRuns_cons_neg c cs hc]
      intro d hd
      simp only [List.head?_cons, Option.some.injEq] at hd
      rw [← hd]
      exact hc

/-- The tail of a `dropWhile` result keeps the hypothesis shape: its head
is not a digit. -/
theorem dropWhile_result_head_neg (cs : List Char) :
    ∀ d, (cs.dropWhile isNd).head? = some d → isNd d = false := by
  intro d hd
  cases hrest : cs.dropWhile isNd with
  | nil => rw [hrest] at hd; cases hd
  | cons e es =>
      rw [hrest] at hd
      simp only [List.head?_cons, Option.some.injEq] at hd
      rw [← hd]
      exact dropWhile_head_neg hrest

/-- Prepending a digit-free prefix does not affect `noLongRun`. -/
theorem noLongRun_nodigit_append {l₁ : List Char} (l₂ : List Char)
    (h1 : ∀ c ∈ l₁, isNd c = false) :
    noLongRun (l₁ ++ l₂) = noLongRun l₂ := by
  induction l₁ with
  | nil => rfl
  | cons a t ih =>
      have ha : isNd a = false := h1 a (List.mem_cons_self a t)
      rw [List.cons_append, noLongRun_cons_neg a (t ++ l₂) ha]
      exact ih (fun c hc => h1 c (List.mem_cons_of_mem a hc))

/-- Prepending a short all-digit run to a list that does not start with a
digit does not affect `noLongRun`. -/
theorem noLongRun_run_append {run X : List Char} (hne : run ≠ [])
    (hall : ∀ c ∈ run, isNd c = true) (hlen : run.length < 8)
    (hX : ∀ d, X.head? = some d → isNd d = false) :
    noLongRun (run ++ X) = noLongRun X := by
  obtain ⟨r, rtail, rfl⟩ := List.exists_cons_of_ne_nil hne
  have hr : isNd r = true := hall r (List.mem_cons_self r rtail)
  rw [List.cons_append, noLongRun_cons_digit r (rtail ++ X) hr]
  have ht : (r :: (rtail ++ X)).takeWhile isNd = r :: rtail := by
    rw [← List.cons_append, List.takeWhile_append_of_pos hall,
        takeWhile_head_nil hX, List.append_nil]
  have hd : (rtail ++ X).dropWhile isNd = X := by
    rw [List.dropWhile_append_of_pos (fun c hc => hall c (List.mem_cons_of_mem r hc))]
    exact dropWhile_head_self hX
  rw [ht, hd, decide_eq_true hlen]
  simp

/-- Splitting off a leading maximal digit run before a non-digit head. -/
theorem maskRuns_run_append {run X : List Char} (hne : run ≠ [])
    (hall : ∀ c ∈ run, isNd c = true)
    (hX : ∀ d, X.head? = some d → isNd d = false) :
    maskRuns (run ++ X) =
      (if 8 ≤ run.length then maskToken else run) ++ maskRuns X := by
  obtain ⟨r, rtail, rfl⟩ := List.exists_cons_of_ne_nil hne
  have hr : isNd r = true := hall r (List.mem_cons_self r rtail)
  rw [List.cons_append, maskRuns_cons_digit r (rtail ++ X) hr]
  have ht : (r :: (rtail ++ X)).takeWhile isNd = r :: rtail := by
    rw [← List.cons_append, List.takeWhile_append_of_pos hall,
        takeWhile_head_nil hX, List.append_nil]
  have hd : (rtail ++ X).dropWhile isNd = X := by
    rw [List.dropWhile_append_of_pos (fun c hc => hall c (List.mem_cons_of_mem r hc))]
    exact dropWhile_head_self hX
  rw [ht, hd]



/-- The output of `maskRuns` never contains a digit run of length 8 or
more: kept runs are short and the token is digit-free. -/
theorem noLongRun_maskRuns (l : List Char) : noLongRun (maskRuns l) = true := by
  induction l using maskRuns.induct with
  | case1 => rw [maskRuns_nil, noLongRun_nil]
  | case2 c cs hc ih =>
      rw [maskRuns_cons_digit c cs hc]
      have hmask_head := maskRuns_head_neg (dropWhile_result_head_neg cs)
      split
      · rw [noLongRun_nodigit_append _ maskToken_no_digit]
        exact ih
      · rename_i hlt
        have hne : (c :: cs).takeWhile isNd ≠ [] := by
          rw [List.takeWhile_cons_of_pos hc]
          exact List.cons_ne_nil _ _
        rw [noLongRun_run_append hne (fun x hx => List.mem_takeWhile_imp hx)
              (by omega) hmask_head]
        exact ih
  | case3 c cs hc ih =>
      have hc' : isNd c = false := by simpa using hc
      rw [maskRuns_cons_neg c cs hc', noLongRun_cons_neg c _ hc']
      exact ih

/-- Text with no long digit run is left unchanged. -/
theorem maskRuns_of_noLongRun :
    ∀ l : List Char, noLongRun l = true → maskRuns l = l := by
  intro l
  induction l using maskRuns.induct with
  | case1 => intro _; rw [maskRuns_nil]
  | case2 c cs hc ih =>
      intro h
      rw [noLongRun_cons_digit c cs hc] at h
      simp only [Bool.and_eq_true, decide_eq_true_eq] at h
      obtain ⟨hlt, hrest⟩ := h
      rw [maskRuns_cons_digit c cs hc, if_neg (by omega), ih hrest,
          ← List.dropWhile_cons_of_pos hc]
      exact List.takeWhile_append_dropWhile _ _
  | case3 c cs hc ih =>
      intro h
      have hc' : isNd c = false := by simpa using hc
      rw [noLongRun_cons_neg c cs hc'] at h
      rw [maskRuns_cons_neg c cs hc', ih h]

/-- Masking is idempotent. -/
theorem maskRuns_idem (l : List Char) : maskRuns (maskRuns l) = maskRuns l :=
  maskRuns_of_noLongRun _ (noLongRun_maskRuns l)



/-- `maskRuns` distributes over an append whose left part ends in a
non-digit (or is empty): no digit run spans the boundary. -/
theorem maskRuns_append (l₂ : List Char) :
    ∀ l₁ : List Char, (∀ e, l₁.getLast? = some e → isNd e = false) →
      maskRuns (l₁ ++ l₂) = maskRuns l₁ ++ maskRuns l₂ := by
  intro l₁
  induction l₁ using maskRuns.induct with
  | case1 => intro _; rw [List.nil_append, maskRuns_nil, List.nil_append]
  | case2 c cs hc ih =>
      intro hlast
      have hcs_ne : cs ≠ [] := by
        rintro rfl
        have := hlast c rfl
        simp [hc] at this
      have hlast_cs : ∀ e, cs.getLast? = some e → isNd e = false := by
        obtain ⟨d, t, rfl⟩ := List.exists_cons_of_ne_nil hcs_ne
        intro e he
        apply hlast
        rw [List.getLast?_cons_cons]
        exact he
      have hrest_ne : cs.dropWhile isNd ≠ [] := by
        intro hnil
        rw [List.dropWhile_eq_nil_iff] at hnil
        have hdig := hnil _ (List.getLast_mem hcs_ne)
        have hnot := hlast_cs _ (List.getLast?_eq_getLast cs hcs_ne)
        simp [hnot] at hdig
      have hlast_rest :
          ∀ e, (cs.dropWhile isNd).getLast? = some e → isNd e = false := by
        intro e he
        obtain ⟨t, ht⟩ := List.dropWhile_suffix (l := cs) isNd
        apply hlast_cs
        rw [← ht, List.getLast?_append_of_ne_nil _ hrest_ne]
        exact he
      have htw : ((c :: cs) ++ l₂).takeWhile isNd =
          (c :: cs).takeWhile isNd := by
        rw [List.takeWhile_append]
        rw [if_neg ?hcond]
        case hcond =>
          intro hlen
          have hpre := List.takeWhile_prefix (l := c :: cs) isNd
          have heq := List.IsPrefix.eq_of_length hpre hlen
          rw [List.takeWhile_eq_self_iff] at heq
          have hdig := heq _ (List.getLast_mem (List.cons_ne_nil c cs))
          have hnot := hlast _ (List.getLast?_eq_getLast _ (List.cons_ne_nil c cs))
          simp [hnot] at hdig
      have hdw : ((c :: cs) ++ l₂).dropWhile isNd =
          (c :: cs).dropWhile isNd ++ l₂ := by
        rw [List.dropWhile_append]
        rw [if_neg ?hcond2]
        case hcond2 =>
          rw [List.dropWhile_cons_of_pos hc]
          simp only [List.isEmpty_iff]
          exact hrest_ne
      rw [List.cons_append, maskRuns_cons_digit c (cs ++ l₂) hc,
          maskRuns_cons_digit c cs hc]
      rw [← List.cons_append, htw]
      have hdw' : (cs ++ l₂).dropWhile isNd =
          cs.dropWhile isNd ++ l₂ := by
        have h1 : ((c :: cs) ++ l₂).dropWhile isNd =
            (cs ++ l₂).dropWhile isNd := by
          rw [List.cons_append, List.dropWhile_cons_of_pos hc]
        rw [← h1, hdw, List.dropWhile_cons_of_pos hc]
      rw [hdw', ih hlast_rest, List.append_assoc]
  | case3 c cs hc ih =>
      intro hlast
      have hc' : isNd c = false := by simpa using hc
      rw [List.cons_append, maskRuns_cons_neg c (cs ++ l₂) hc',
          maskRuns_cons_neg c cs hc']
      rcases eq_or_ne cs [] with rfl | hcs_ne
      · rw [List.nil_append, maskRuns_nil, List.cons_append, List.nil_append]
      · have hlast_cs : ∀ e, cs.getLast? = some e → isNd e = false := by
          obtain ⟨d, t, rfl⟩ := List.exists_cons_of_ne_nil hcs_ne
          intro e he
          apply hlast
          rw [List.getLast?_cons_cons]
          exact he
        rw [ih hlast_cs, List.cons_append]



/-- C6: `mask_personal_data` replaces a maximal digit run of length at
least 8 with the fixed token wherever one occurs, leaves text without such
runs unchanged, never leaves such a run in its output, and is
idempotent. -/
theorem mask_personal_data_spec :
    (∀ a run b : List Char,
        (∀ c ∈ run, isNd c = true) → 8 ≤ run.length →
        (∀ e, a.getLast? = some e → isNd e = false) →
        (∀ d, b.head? = some d → isNd d = false) →
        maskRuns (a ++ run ++ b) = maskRuns a ++ maskToken ++ maskRuns b) ∧
    (∀ s : String, noLongRun s.data = true → mask_personal_data s = s) ∧
    (∀ s : String, noLongRun (mask_personal_data s).data = true) ∧
    (∀ s : String, mask_personal_data (mask_personal_data s) = mask_personal_data s) := by
  refine ⟨?_, ?_, ?_, ?_⟩
  · intro a run b hall hlen ha hb
    have hne : run ≠ [] := by
      rintro rfl
      simp at hlen
    rw [List.append_assoc, maskRuns_append (run ++ b) a ha,
        maskRuns_run_append hne hall hb, if_pos hlen, List.append_assoc]
  · intro s h
    unfold mask_personal_data
    rw [maskRuns_of_noLongRun s.data h]
  · intro s
    unfold mask_personal_data
    exact noLongRun_maskRuns s.data
  · intro s
    unfold mask_personal_data
    rw [maskRuns_idem]

/-- Witness for C6: the spec's example, `"Card ending 123456789012"`. -/
theorem mask_personal_data_spec_witness :
    (maskRuns ("Card ending ".data ++ "123456789012".data ++ []) =
      maskRuns "Card ending ".data ++ maskToken ++ maskRuns []) ∧
    (maskRuns ([] ++ "०१२३४५६७".data ++ []) =
      maskRuns [] ++ maskToken ++ maskRuns []) :=
  ⟨mask_personal_data_spec.1 "Card ending ".data "123456789012".data []
    (by decide)
    (by decide)
    (by
      intro e he
      have hlast : "Card ending ".data.getLast? = some ' ' := by rfl
      rw [hlast, Option.some.injEq] at he
      rw [← he]
      rfl)
    (by intro d hd; cases hd),
   mask_personal_data_spec.1 [] "०१२३४५६७".data []
    (by decide)
    (by decide)
    (by intro e he; cases he)
    (by intro d hd; cases hd)⟩

end FinAI
